import Mathlib

/-!
Verification of the event-filtering logic of
`src/packages/eventcatalog/pages/events.tsx`.

The embedded functions are `getFilteredEvents` (the filter engine),
`handleFilterSelection` (checkbox toggling of the service/domain filter
sets) and `filtersApplied` (the "any filter active" flag).  JavaScript
idioms appearing in the source (`!array`, `!string`, `Array.indexOf`,
`String.includes`, `String.toLowerCase`) are modelled by explicit helper
functions below.
-/

namespace EventCatalog

/-- An event record, with the fields read by the filter engine
(`name`, `domain`, `producerNames`, `consumerNames`). -/
structure Event where
  name : String
  domain : String
  producerNames : List String
  consumerNames : List String
  deriving DecidableEq, Repr

/-- The filter state: the `selectedFilters` React state object
(fields `services` and `domains`, both initialised to `[]`) together with
the `searchFilter` string state (initialised to `''`). -/
structure FilterState where
  selectedServices : List String
  selectedDomains : List String
  searchText : String
  deriving DecidableEq, Repr

/-- JavaScript truthiness of an array-valued expression: an array is an
object and every object is truthy, whatever its contents. -/
def jsTruthyArray (_ : List String) : Bool := true

/-- JavaScript truthiness of a string: the empty string is falsy, every
other string is truthy. -/
def jsTruthyString (s : String) : Bool := !(s == "")

/-- `Array.prototype.indexOf`: index of the first occurrence of `x`,
or `-1` when `x` does not occur. -/
def jsIndexOf (l : List String) (x : String) : Int :=
  match l with
  | [] => -1
  | a :: rest =>
    if a == x then 0
    else
      let r := jsIndexOf rest x
      if r == -1 then -1 else r + 1

/-- Does the character list `s` start with the character list `p`? -/
def charsStartsWith : List Char → List Char → Bool
  | _, [] => true
  | [], _ :: _ => false
  | a :: s, b :: p => a == b && charsStartsWith s p

/-- Does the character list `s` contain `p` as a contiguous run? -/
def charsIncludes : List Char → List Char → Bool
  | [], p => charsStartsWith [] p
  | a :: s, p => charsStartsWith (a :: s) p || charsIncludes s p

/-- `String.prototype.includes`: `hay` contains `pat` as a substring. -/
def jsIncludes (hay pat : String) : Bool :=
  charsIncludes hay.data pat.data

/-- `String.prototype.toLowerCase`, modelled characterwise. -/
def jsToLowerCase (s : String) : String :=
  String.mk (s.data.map Char.toLower)

/-- The predicate of the service-filter pass: the event has some consumer
name or some producer name whose `indexOf` in the selected services is
greater than `-1`. -/
def serviceMatch (f : FilterState) (e : Event) : Bool :=
  let hasConsumersFromFilters :=
    e.consumerNames.any (fun consumerId => decide (jsIndexOf f.selectedServices consumerId > -1))
  let hasProducersFromFilters :=
    e.producerNames.any (fun producerId => decide (jsIndexOf f.selectedServices producerId > -1))
  hasConsumersFromFilters || hasProducersFromFilters

/-- The predicate of the domain-filter pass: the event's `domain` has
`indexOf` greater than `-1` in the selected domains. -/
def domainMatch (f : FilterState) (e : Event) : Bool :=
  decide (jsIndexOf f.selectedDomains e.domain > -1)

/-- The predicate of the text-filter pass: the lower-cased event name
contains the lower-cased search text as a substring. -/
def textMatch (f : FilterState) (e : Event) : Bool :=
  jsIncludes (jsToLowerCase e.name) (jsToLowerCase f.searchText)

/-- The service-filter pass: `if (selectedFilters.services.length > 0)`
then filter by `serviceMatch`, else leave the list unchanged. -/
def serviceStage (f : FilterState) (l : List Event) : List Event :=
  if f.selectedServices.length > 0 then l.filter (serviceMatch f) else l

/-- The domain-filter pass: `if (selectedFilters.domains.length > 0)`
then filter by `domainMatch`, else leave the list unchanged. -/
def domainStage (f : FilterState) (l : List Event) : List Event :=
  if f.selectedDomains.length > 0 then l.filter (domainMatch f) else l

/-- The text-filter pass: `if (searchFilter)` (string truthiness) then
filter by `textMatch`, else leave the list unchanged. -/
def textStage (f : FilterState) (l : List Event) : List Event :=
  if jsTruthyString f.searchText then l.filter (textMatch f) else l

/-- The guard of the early-return line
`if (!selectedFilters.services && !searchFilter && !selectedFilters.domains) return events;`
with JavaScript truthiness made explicit. -/
def earlyReturnGuard (f : FilterState) : Bool :=
  !jsTruthyArray f.selectedServices && !jsTruthyString f.searchText
    && !jsTruthyArray f.selectedDomains

/-- Shallow embedding of `getFilteredEvents`: the early-return guard,
then the three successive narrowing passes over `filteredEvents`. -/
def getFilteredEvents (events : List Event) (selectedFilters : FilterState) : List Event :=
  if earlyReturnGuard selectedFilters then events
  else
    let filteredEvents := events
    let filteredEvents := serviceStage selectedFilters filteredEvents
    let filteredEvents := domainStage selectedFilters filteredEvents
    let filteredEvents := textStage selectedFilters filteredEvents
    filteredEvents

/-- `getFilteredEvents` with the early-return branch deleted. -/
def getFilteredEventsNoEarly (events : List Event) (selectedFilters : FilterState) : List Event :=
  let filteredEvents := events
  let filteredEvents := serviceStage selectedFilters filteredEvents
  let filteredEvents := domainStage selectedFilters filteredEvents
  let filteredEvents := textStage selectedFilters filteredEvents
  filteredEvents

/-- Which of the two selected-filter lists a checkbox belongs to
(the `type` argument of `handleFilterSelection`, either the string
`'services'` or the string `'domains'`). -/
inductive FilterKind where
  | services
  | domains
  deriving DecidableEq, Repr

/-- Shallow embedding of `handleFilterSelection`: when the checkbox is
checked the option value is appended (`Array.concat`), when unchecked
every occurrence of the value is removed (`Array.filter` with
`value !== option.value`); the other field is spread unchanged. -/
def handleFilterSelection (f : FilterState) (optionValue : String)
    (kind : FilterKind) (checked : Bool) : FilterState :=
  if checked then
    match kind with
    | .services => { f with selectedServices := f.selectedServices ++ [optionValue] }
    | .domains => { f with selectedDomains := f.selectedDomains ++ [optionValue] }
  else
    match kind with
    | .services =>
      { f with selectedServices := f.selectedServices.filter (fun value => !(value == optionValue)) }
    | .domains =>
      { f with selectedDomains := f.selectedDomains.filter (fun value => !(value == optionValue)) }

/-- Shallow embedding of
`const filtersApplied = !!searchFilter || selectedFilters.services.length > 0;`. -/
def filtersApplied (f : FilterState) : Bool :=
  jsTruthyString f.searchText || decide (f.selectedServices.length > 0)

/-- The effective keep-predicate of the service pass: when no service is
selected the pass is skipped, i.e. every event is kept. -/
def serviceKeep (f : FilterState) (e : Event) : Bool :=
  if f.selectedServices.length > 0 then serviceMatch f e else true

/-- The effective keep-predicate of the domain pass. -/
def domainKeep (f : FilterState) (e : Event) : Bool :=
  if f.selectedDomains.length > 0 then domainMatch f e else true

/-- The effective keep-predicate of the text pass. -/
def textKeep (f : FilterState) (e : Event) : Bool :=
  if jsTruthyString f.searchText then textMatch f e else true

/-- Sample event from the spec scenario. -/
def orderCreated : Event :=
  { name := "OrderCreated", domain := "Orders"
    producerNames := ["OrderService"], consumerNames := ["BillingService"] }

/-- Sample event from the spec scenario. -/
def orderShipped : Event :=
  { name := "OrderShipped", domain := "Shipping"
    producerNames := ["ShippingService"], consumerNames := [] }

theorem jsIndexOf_ge_neg_one (l : List String) (x : String) : -1 ≤ jsIndexOf l x := by
  induction l with
  | nil => simp [jsIndexOf]
  | cons a rest ih =>
    simp only [jsIndexOf]
    by_cases h : a == x
    · simp [h]
    · simp only [h, if_false]
      split <;> omega

theorem jsIndexOf_gt_neg_one_iff (l : List String) (x : String) :
    -1 < jsIndexOf l x ↔ x ∈ l := by
  induction l with
  | nil => simp [jsIndexOf]
  | cons a rest ih =>
    by_cases h : a = x
    · subst h
      simp [jsIndexOf]
    · have hb : (a == x) = false := by simpa using h
      have hge := jsIndexOf_ge_neg_one rest x
      simp only [jsIndexOf, hb, Bool.false_eq_true, if_false, List.mem_cons]
      constructor
      · intro hgt
        right
        rw [← ih]
        split at hgt
        · omega
        · rename_i hne
          have hne2 : jsIndexOf rest x ≠ -1 := by simpa using hne
          omega
      · rintro (rfl | hmem)
        · exact absurd rfl h
        · have hpos := ih.2 hmem
          have hne2 : jsIndexOf rest x ≠ -1 := by omega
          have hb2 : (jsIndexOf rest x == -1) = false := by simpa using hne2
          simp only [hb2, Bool.false_eq_true, if_false]
          omega

theorem serviceMatch_iff (f : FilterState) (e : Event) :
    serviceMatch f e = true ↔
      ((∃ s ∈ e.producerNames, s ∈ f.selectedServices)
        ∨ (∃ s ∈ e.consumerNames, s ∈ f.selectedServices)) := by
  simp [serviceMatch, List.any_eq_true, jsIndexOf_gt_neg_one_iff, or_comm]

theorem domainMatch_iff (f : FilterState) (e : Event) :
    domainMatch f e = true ↔ e.domain ∈ f.selectedDomains := by
  simp [domainMatch, jsIndexOf_gt_neg_one_iff]

theorem serviceStage_eq_filter (f : FilterState) (l : List Event) :
    serviceStage f l = l.filter (serviceKeep f) := by
  by_cases h : f.selectedServices.length > 0
  · rw [serviceStage, if_pos h]
    exact List.filter_congr fun e _ => by simp [serviceKeep, h]
  · rw [serviceStage, if_neg h]
    exact (List.filter_eq_self.2 fun e _ => by simp [serviceKeep, h]).symm

theorem domainStage_eq_filter (f : FilterState) (l : List Event) :
    domainStage f l = l.filter (domainKeep f) := by
  by_cases h : f.selectedDomains.length > 0
  · rw [domainStage, if_pos h]
    exact List.filter_congr fun e _ => by simp [domainKeep, h]
  · rw [domainStage, if_neg h]
    exact (List.filter_eq_self.2 fun e _ => by simp [domainKeep, h]).symm

theorem textStage_eq_filter (f : FilterState) (l : List Event) :
    textStage f l = l.filter (textKeep f) := by
  by_cases h : jsTruthyString f.searchText = true
  · rw [textStage, if_pos h]
    exact List.filter_congr fun e _ => by simp [textKeep, h]
  · rw [textStage, if_neg h]
    exact (List.filter_eq_self.2 fun e _ => by simp [textKeep, h]).symm

theorem earlyReturnGuard_false (f : FilterState) : earlyReturnGuard f = false := by
  simp [earlyReturnGuard, jsTruthyArray]

theorem getFilteredEvents_eq_stages (E : List Event) (f : FilterState) :
    getFilteredEvents E f = textStage f (domainStage f (serviceStage f E)) := by
  simp [getFilteredEvents, earlyReturnGuard_false]

theorem getFilteredEvents_eq_filter (E : List Event) (f : FilterState) :
    getFilteredEvents E f
      = E.filter (fun e => serviceKeep f e && domainKeep f e && textKeep f e) := by
  rw [getFilteredEvents_eq_stages, serviceStage_eq_filter, domainStage_eq_filter,
    textStage_eq_filter, List.filter_filter, List.filter_filter]
  apply List.filter_congr
  intro e _
  simp [Bool.and_assoc, Bool.and_comm, Bool.and_left_comm]

theorem charsIncludes_nil (s : List Char) : charsIncludes s [] = true := by
  cases s <;> simp [charsIncludes, charsStartsWith]

theorem jsToLowerCase_eq_empty_iff (s : String) : jsToLowerCase s = "" ↔ s = "" := by
  constructor
  · intro h
    have hd := congrArg String.data h
    simp only [jsToLowerCase] at hd
    have : s.data = [] := by simpa using hd
    cases s
    simp_all
  · intro h
    subst h
    rfl

theorem textKeep_eq_textMatch (f : FilterState) (e : Event) :
    textKeep f e = textMatch f e := by
  by_cases h : jsTruthyString f.searchText = true
  · simp [textKeep, h]
  · have hs : f.searchText = "" := by
      simpa [jsTruthyString] using h
    simp [textKeep, h, textMatch, hs, jsToLowerCase, jsIncludes, charsIncludes_nil]

theorem getFilteredEvents_searchText_congr (E : List Event) (f : FilterState) (s1 s2 : String)
    (h : jsToLowerCase s1 = jsToLowerCase s2) :
    getFilteredEvents E { f with searchText := s1 }
      = getFilteredEvents E { f with searchText := s2 } := by
  have hempt : s1 = "" ↔ s2 = "" := by
    rw [← jsToLowerCase_eq_empty_iff s1, ← jsToLowerCase_eq_empty_iff s2, h]
  have htruthy : jsTruthyString s1 = jsTruthyString s2 := by
    by_cases h1 : s1 = ""
    · have h2 := hempt.1 h1
      simp [jsTruthyString, h1, h2]
    · have h2 : ¬s2 = "" := fun hc => h1 (hempt.2 hc)
      simp [jsTruthyString, h1, h2]
  have hsm : serviceMatch { f with searchText := s1 } = serviceMatch { f with searchText := s2 } := rfl
  have hdm : domainMatch { f with searchText := s1 } = domainMatch { f with searchText := s2 } := rfl
  have htm : textMatch { f with searchText := s1 } = textMatch { f with searchText := s2 } := by
    funext e
    simp only [textMatch, h]
  rw [getFilteredEvents_eq_stages, getFilteredEvents_eq_stages]
  simp only [serviceStage, domainStage, textStage, hsm, hdm, htm, htruthy]

theorem mem_getFilteredEvents (E : List Event) (f : FilterState) (e : Event) :
    e ∈ getFilteredEvents E f ↔
      (e ∈ E ∧ serviceKeep f e = true ∧ domainKeep f e = true ∧ textKeep f e = true) := by
  rw [getFilteredEvents_eq_filter]
  simp [List.mem_filter, and_assoc]

/-- C1 (counterexample): the claim quantifies over every `FilterState`
with non-empty `selectedServices`.  With
`selectedServices = ["OrderService"]` and `selectedDomains = ["Shipping"]`,
the event `orderCreated` is in the input and matches the service predicate
(its producer `"OrderService"` is selected), yet the domain pass removes
it, so it is absent from the result: completeness fails as stated. -/
theorem serviceFilter_exact_counterexample :
    ¬ (∀ e ∈ [orderCreated],
        ((∃ s ∈ e.producerNames, s ∈ (FilterState.mk ["OrderService"] ["Shipping"] "").selectedServices)
          ∨ (∃ s ∈ e.consumerNames, s ∈ (FilterState.mk ["OrderService"] ["Shipping"] "").selectedServices))
        → e ∈ getFilteredEvents [orderCreated] (FilterState.mk ["OrderService"] ["Shipping"] "")) := by
  decide

/-- C1 (amended): for every event list and every filter state with
non-empty `selectedServices`, every event of the result has a producer or
consumer name among the selected services (soundness); and when the other
two dimensions are unconstrained, every event of the input with a producer
or consumer name among the selected services is in the result
(completeness). -/
theorem serviceFilter_sound_complete (E : List Event) (f : FilterState)
    (hS : f.selectedServices ≠ []) :
    (∀ e ∈ getFilteredEvents E f,
      (∃ s ∈ e.producerNames, s ∈ f.selectedServices)
        ∨ (∃ s ∈ e.consumerNames, s ∈ f.selectedServices))
    ∧ (f.selectedDomains = [] → f.searchText = "" →
        ∀ e ∈ E,
          ((∃ s ∈ e.producerNames, s ∈ f.selectedServices)
            ∨ (∃ s ∈ e.consumerNames, s ∈ f.selectedServices))
          → e ∈ getFilteredEvents E f) := by
  have hlen : f.selectedServices.length > 0 := List.length_pos.2 hS
  constructor
  · intro e he
    have hm := (mem_getFilteredEvents E f e).1 he
    have hk := hm.2.1
    rw [serviceKeep, if_pos hlen] at hk
    exact (serviceMatch_iff f e).1 hk
  · intro hd ht e heE hmatch
    rw [mem_getFilteredEvents]
    refine ⟨heE, ?_, ?_, ?_⟩
    · rw [serviceKeep, if_pos hlen]
      exact (serviceMatch_iff f e).2 hmatch
    · simp [domainKeep, hd]
    · simp [textKeep, ht, jsTruthyString]

/-- C1 (witness): the amended theorem applied with
`selectedServices = ["BillingService"]` and the two-event spec scenario. -/
theorem serviceFilter_sound_complete_witness :
    (∀ e ∈ getFilteredEvents [orderCreated, orderShipped] (FilterState.mk ["BillingService"] [] ""),
      (∃ s ∈ e.producerNames, s ∈ (FilterState.mk ["BillingService"] [] "").selectedServices)
        ∨ (∃ s ∈ e.consumerNames, s ∈ (FilterState.mk ["BillingService"] [] "").selectedServices))
    ∧ ((FilterState.mk ["BillingService"] [] "").selectedDomains = []
        → (FilterState.mk ["BillingService"] [] "").searchText = ""
        → ∀ e ∈ [orderCreated, orderShipped],
          ((∃ s ∈ e.producerNames, s ∈ (FilterState.mk ["BillingService"] [] "").selectedServices)
            ∨ (∃ s ∈ e.consumerNames, s ∈ (FilterState.mk ["BillingService"] [] "").selectedServices))
          → e ∈ getFilteredEvents [orderCreated, orderShipped] (FilterState.mk ["BillingService"] [] "")) :=
  serviceFilter_sound_complete [orderCreated, orderShipped]
    (FilterState.mk ["BillingService"] [] "") (by decide)

/-- C2: the engine equals a single stable filter of the input by the
conjunction of the three effective keep-predicates; membership in the
result is exactly simultaneous membership in the three individual
dimension passes; and the result is a sublist of the input, so the
surviving events keep their original relative order. -/
theorem filters_compose_conjunctively (E : List Event) (f : FilterState) :
    getFilteredEvents E f
        = E.filter (fun e => serviceKeep f e && domainKeep f e && textKeep f e)
    ∧ (∀ e : Event, e ∈ getFilteredEvents E f ↔
        (e ∈ serviceStage f E ∧ e ∈ domainStage f E ∧ e ∈ textStage f E))
    ∧ (getFilteredEvents E f).Sublist E := by
  refine ⟨getFilteredEvents_eq_filter E f, ?_, ?_⟩
  · intro e
    rw [mem_getFilteredEvents, serviceStage_eq_filter, domainStage_eq_filter,
      textStage_eq_filter]
    simp only [List.mem_filter]
    tauto
  · rw [getFilteredEvents_eq_filter]
    exact List.filter_sublist E

/-- C3: when every dimension is unconstrained (empty service set, empty
domain set, empty search text) the engine returns the input unchanged. -/
theorem unconstrained_identity (E : List Event) (f : FilterState)
    (hs : f.selectedServices = []) (hd : f.selectedDomains = []) (ht : f.searchText = "") :
    getFilteredEvents E f = E := by
  rw [getFilteredEvents_eq_stages]
  simp [serviceStage, domainStage, textStage, hs, hd, ht, jsTruthyString]

/-- C3 (witness): the identity law at the two-event spec scenario and the
all-empty filter state. -/
theorem unconstrained_identity_witness :
    getFilteredEvents [orderCreated, orderShipped] (FilterState.mk [] [] "")
      = [orderCreated, orderShipped] :=
  unconstrained_identity [orderCreated, orderShipped] (FilterState.mk [] [] "") rfl rfl rfl

/-- C4 (counterexample): the claim quantifies over every `FilterState`
with non-empty `selectedDomains`.  With `selectedDomains = ["Orders"]` and
`selectedServices = ["UnrelatedService"]`, the event `orderCreated` is in
the input and its domain `"Orders"` is selected, yet the service pass
removes it, so it is absent from the result: the claimed equality fails as
stated. -/
theorem domainFilter_exact_counterexample :
    ¬ (∀ e ∈ [orderCreated],
        e.domain ∈ (FilterState.mk ["UnrelatedService"] ["Orders"] "").selectedDomains
        → e ∈ getFilteredEvents [orderCreated] (FilterState.mk ["UnrelatedService"] ["Orders"] "")) := by
  decide

/-- C4 (amended): for every event list and every filter state with
non-empty `selectedDomains`, every event of the result has its domain in
the selected domains (soundness); and when the other two dimensions are
unconstrained, every input event whose domain is selected is in the result
(completeness). -/
theorem domainFilter_sound_complete (E : List Event) (f : FilterState)
    (hD : f.selectedDomains ≠ []) :
    (∀ e ∈ getFilteredEvents E f, e.domain ∈ f.selectedDomains)
    ∧ (f.selectedServices = [] → f.searchText = "" →
        ∀ e ∈ E, e.domain ∈ f.selectedDomains → e ∈ getFilteredEvents E f) := by
  have hlen : f.selectedDomains.length > 0 := List.length_pos.2 hD
  constructor
  · intro e he
    have hm := (mem_getFilteredEvents E f e).1 he
    have hk := hm.2.2.1
    rw [domainKeep, if_pos hlen] at hk
    exact (domainMatch_iff f e).1 hk
  · intro hs ht e heE hdom
    rw [mem_getFilteredEvents]
    refine ⟨heE, ?_, ?_, ?_⟩
    · simp [serviceKeep, hs]
    · rw [domainKeep, if_pos hlen]
      exact (domainMatch_iff f e).2 hdom
    · simp [textKeep, ht, jsTruthyString]

/-- C4 (witness): the amended theorem applied with
`selectedDomains = ["Orders"]` and the two-event spec scenario. -/
theorem domainFilter_sound_complete_witness :
    (∀ e ∈ getFilteredEvents [orderCreated, orderShipped] (FilterState.mk [] ["Orders"] ""),
      e.domain ∈ (FilterState.mk [] ["Orders"] "").selectedDomains)
    ∧ ((FilterState.mk [] ["Orders"] "").selectedServices = []
        → (FilterState.mk [] ["Orders"] "").searchText = ""
        → ∀ e ∈ [orderCreated, orderShipped],
          e.domain ∈ (FilterState.mk [] ["Orders"] "").selectedDomains
          → e ∈ getFilteredEvents [orderCreated, orderShipped] (FilterState.mk [] ["Orders"] "")) :=
  domainFilter_sound_complete [orderCreated, orderShipped]
    (FilterState.mk [] ["Orders"] "") (by decide)

/-- C5: the text filter is a case-insensitive substring match on the
event name: two search texts with the same lower-casing yield identical
engine results, and an event survives the text pass exactly when the
lower-cased name contains the lower-cased search text as a substring. -/
theorem textFilter_case_insensitive (E : List Event) (f : FilterState) (s1 s2 : String)
    (h : jsToLowerCase s1 = jsToLowerCase s2) :
    getFilteredEvents E { f with searchText := s1 }
        = getFilteredEvents E { f with searchText := s2 }
    ∧ (∀ e : Event, e ∈ textStage f E ↔
        (e ∈ E ∧ jsIncludes (jsToLowerCase e.name) (jsToLowerCase f.searchText) = true)) := by
  refine ⟨getFilteredEvents_searchText_congr E f s1 s2 h, ?_⟩
  intro e
  rw [textStage_eq_filter, List.mem_filter, textKeep_eq_textMatch]
  exact Iff.rfl

/-- C5 (witness): the theorem applied with the case variants `"ORDER"`
and `"order"` over the two-event spec scenario. -/
theorem textFilter_case_insensitive_witness :
    getFilteredEvents [orderCreated, orderShipped]
        { FilterState.mk [] [] "ship" with searchText := "ORDER" }
      = getFilteredEvents [orderCreated, orderShipped]
        { FilterState.mk [] [] "ship" with searchText := "order" }
    ∧ (∀ e : Event, e ∈ textStage (FilterState.mk [] [] "ship") [orderCreated, orderShipped] ↔
        (e ∈ [orderCreated, orderShipped]
          ∧ jsIncludes (jsToLowerCase e.name)
              (jsToLowerCase (FilterState.mk [] [] "ship").searchText) = true)) :=
  textFilter_case_insensitive [orderCreated, orderShipped]
    (FilterState.mk [] [] "ship") "ORDER" "order" (by decide)

/-- C6: the "filters applied" flag is true exactly when the search text
is non-empty or the selected-service set is non-empty; in particular a
state with only domains selected leaves the flag false. -/
theorem filtersApplied_characterization (f : FilterState) :
    (filtersApplied f = true ↔ (f.searchText ≠ "" ∨ f.selectedServices ≠ []))
    ∧ (f.selectedServices = [] → f.searchText = "" → filtersApplied f = false) := by
  constructor
  · simp [filtersApplied, jsTruthyString, List.length_pos]
  · intro hs ht
    simp [filtersApplied, jsTruthyString, hs, ht]

/-- C7: toggling is a round-trip: for any state whose `selectedServices`
does not already contain `v` (the other fields arbitrary), checking `v`
as a service and then unchecking it restores the filter state exactly and
hence restores the engine output on any event list; and symmetrically for
`selectedDomains`, under only the corresponding non-membership. -/
theorem toggle_round_trip (f : FilterState) (v : String) (E : List Event) :
    (v ∉ f.selectedServices →
      handleFilterSelection (handleFilterSelection f v .services true) v .services false = f
      ∧ getFilteredEvents E
          (handleFilterSelection (handleFilterSelection f v .services true) v .services false)
          = getFilteredEvents E f)
    ∧ (v ∉ f.selectedDomains →
      handleFilterSelection (handleFilterSelection f v .domains true) v .domains false = f
      ∧ getFilteredEvents E
          (handleFilterSelection (handleFilterSelection f v .domains true) v .domains false)
          = getFilteredEvents E f) := by
  have key : ∀ (l : List String), v ∉ l →
      (l ++ [v]).filter (fun value => !(value == v)) = l := by
    intro l hv
    rw [List.filter_append]
    have h1 : l.filter (fun value => !(value == v)) = l :=
      List.filter_eq_self.2 fun a ha => by
        have hne : a ≠ v := fun hc => hv (hc ▸ ha)
        simp [hne]
    have h2 : [v].filter (fun value => !(value == v)) = [] := by simp
    rw [h1, h2, List.append_nil]
  constructor
  · intro hs
    have hserv :
        handleFilterSelection (handleFilterSelection f v .services true) v .services false = f := by
      simp [handleFilterSelection, key f.selectedServices hs]
    exact ⟨hserv, by rw [hserv]⟩
  · intro hd
    have hdom :
        handleFilterSelection (handleFilterSelection f v .domains true) v .domains false = f := by
      simp [handleFilterSelection, key f.selectedDomains hd]
    exact ⟨hdom, by rw [hdom]⟩

/-- C7 (witness): the service round-trip applied with value `"Orders"` —
already a selected domain but not a selected service — and the domain
round-trip applied with value `"BillingService"` — already a selected
service but not a selected domain — over the two-event scenario. -/
theorem toggle_round_trip_witness :
    (handleFilterSelection
        (handleFilterSelection (FilterState.mk ["BillingService"] ["Orders"] "x")
          "Orders" .services true)
        "Orders" .services false
      = FilterState.mk ["BillingService"] ["Orders"] "x"
    ∧ getFilteredEvents [orderCreated, orderShipped]
        (handleFilterSelection
          (handleFilterSelection (FilterState.mk ["BillingService"] ["Orders"] "x")
            "Orders" .services true)
          "Orders" .services false)
      = getFilteredEvents [orderCreated, orderShipped]
          (FilterState.mk ["BillingService"] ["Orders"] "x"))
    ∧ (handleFilterSelection
        (handleFilterSelection (FilterState.mk ["BillingService"] ["Orders"] "x")
          "BillingService" .domains true)
        "BillingService" .domains false
      = FilterState.mk ["BillingService"] ["Orders"] "x"
    ∧ getFilteredEvents [orderCreated, orderShipped]
        (handleFilterSelection
          (handleFilterSelection (FilterState.mk ["BillingService"] ["Orders"] "x")
            "BillingService" .domains true)
          "BillingService" .domains false)
      = getFilteredEvents [orderCreated, orderShipped]
          (FilterState.mk ["BillingService"] ["Orders"] "x")) :=
  ⟨(toggle_round_trip (FilterState.mk ["BillingService"] ["Orders"] "x") "Orders"
      [orderCreated, orderShipped]).1 (by decide),
   (toggle_round_trip (FilterState.mk ["BillingService"] ["Orders"] "x") "BillingService"
      [orderCreated, orderShipped]).2 (by decide)⟩

/-- C8: the engine is a pure total function of its two inputs: it is
defined for every event list and every filter state, and its output is
determined by those two inputs alone. -/
theorem engine_pure_total (E1 E2 : List Event) (f1 f2 : FilterState)
    (hE : E1 = E2) (hf : f1 = f2) :
    getFilteredEvents E1 f1 = getFilteredEvents E2 f2 := by
  rw [hE, hf]

/-- C8 (witness): purity at the two-event spec scenario. -/
theorem engine_pure_total_witness :
    getFilteredEvents [orderCreated, orderShipped] (FilterState.mk ["BillingService"] [] "ship")
      = getFilteredEvents [orderCreated, orderShipped]
          (FilterState.mk ["BillingService"] [] "ship") :=
  engine_pure_total [orderCreated, orderShipped] [orderCreated, orderShipped]
    (FilterState.mk ["BillingService"] [] "ship")
    (FilterState.mk ["BillingService"] [] "ship") rfl rfl

/-- C9: the early-return guard conjoins JavaScript negations of two
always-truthy arrays, so it is false on every filter state, and the engine
is extensionally equal to the same function with the branch removed. -/
theorem earlyReturn_unreachable (E : List Event) (f : FilterState) :
    earlyReturnGuard f = false
    ∧ getFilteredEvents E f = getFilteredEventsNoEarly E f := by
  refine ⟨earlyReturnGuard_false f, ?_⟩
  simp [getFilteredEvents, getFilteredEventsNoEarly, earlyReturnGuard_false]

/-- C10: the engine result is a sublist of the input — every result event
occurs in the input, none is duplicated or synthesized, the length never
grows — and each of the three passes preserves this invariant. -/
theorem engine_result_sublist (E : List Event) (f : FilterState) :
    (getFilteredEvents E f).Sublist E
    ∧ (getFilteredEvents E f).length ≤ E.length
    ∧ (∀ l, (serviceStage f l).Sublist l)
    ∧ (∀ l, (domainStage f l).Sublist l)
    ∧ (∀ l, (textStage f l).Sublist l) := by
  have hmain : (getFilteredEvents E f).Sublist E := by
    rw [getFilteredEvents_eq_filter]
    exact List.filter_sublist E
  refine ⟨hmain, hmain.length_le, ?_, ?_, ?_⟩
  · intro l
    rw [serviceStage_eq_filter]
    exact List.filter_sublist l
  · intro l
    rw [domainStage_eq_filter]
    exact List.filter_sublist l
  · intro l
    rw [textStage_eq_filter]
    exact List.filter_sublist l

end EventCatalog
